import Mathlib

/-!
# PDFKatana — verification of the split/validate/repair core

Shallow embedding of the decision logic of `src/app/core/splitter.py`,
`src/app/core/validator.py` and `src/app/api/routes/split.py` from the
PDFKatana repository, together with theorems settling the specification
claims about range planning, validation verdicts, repair fallback
behaviour and the HTTP pipeline's fallback-over-failure policy.

Machine integers of the source are modelled as `Int`/`Nat` (page counts and
page indices are small, no overflow is possible in the source's arithmetic),
byte buffers as `List Nat`, Python strings as Lean `String`, exceptions as
`Except`/explicit variants, and the PDF-library object graph as explicit
inductive data (`VPage`, `VDoc`, `RPage`, …) carrying exactly the fields the
source inspects.
-/

namespace PDFKatana

/-! ## Range planning (`split_pdf`, splitter.py lines 50-78)

The source converts the 1-based split pages to 0-based indices, sorts them
(Python `sorted`, an ascending stable sort — modelled by `List.insertionSort`,
extensionally identical on integer lists), rejects empty or out-of-range
inputs with `ValueError`, and builds the list of half-open ranges:
a leading range when the first index is positive, then one range per index
with the last range closed at `num_pages`.  No deduplication is performed. -/

/-- The `for i in range(len(split_indices))` loop of `split_pdf`
(splitter.py lines 72-78): one range per split index, ending at the
following index, the last one at `num_pages`. -/
def midRanges (num_pages : Int) : List Int → List (Int × Int)
  | [] => []
  | [a] => [(a, num_pages)]
  | a :: b :: rest => (a, b) :: midRanges num_pages (b :: rest)

/-- Range construction of `split_pdf` (splitter.py lines 64-78): optional
leading range `[0, first_index)` followed by the per-index ranges. -/
def buildRanges (num_pages : Int) (split_indices : List Int) : List (Int × Int) :=
  (if 0 < split_indices.headD 0 then [((0 : Int), split_indices.headD 0)] else [])
    ++ midRanges num_pages split_indices

/-- `sorted([page - 1 for page in split_pages])` (splitter.py line 55). -/
def sorted_split_indices (split_pages : List Int) : List Int :=
  List.insertionSort (· ≤ ·) (split_pages.map (· - 1))

/-- The range-planning step of `split_pdf` (splitter.py lines 50-78).
`Except.error` models the raised `ValueError` (the source's error text also
interpolates the offending values; only its occurrence matters here).
`split_indices[0]` / `split_indices[-1]` are total in the source because the
empty list was already rejected; `headD`/`getLastD` model them. -/
def split_pdf_plan (num_pages : Nat) (split_pages : List Int) :
    Except String (List (Int × Int)) :=
  if split_pages.isEmpty then
    Except.error "At least one split page must be specified"
  else
    let split_indices := sorted_split_indices split_pages
    if split_indices.headD 0 < 0 ∨ (num_pages : Int) ≤ split_indices.getLastD 0 then
      Except.error "Split pages out of range"
    else
      Except.ok (buildRanges (num_pages : Int) split_indices)

/-! ### Tiling predicate

`linkedFrom a N rs` says the ranges `rs` are consecutive non-empty half-open
intervals starting at `a` and ending exactly at `N`: ascending, no gaps, no
overlaps.  This is the formal reading of "union is exactly `[a, N)`". -/

def linkedFrom (a N : Int) : List (Int × Int) → Bool
  | [] => a == N
  | (s, e) :: rest => (a == s && decide (s < e)) && linkedFrom e N rest

/-- A range list tiles `[0, N)`. -/
def tilesB (N : Int) (rs : List (Int × Int)) : Bool := linkedFrom 0 N rs

lemma linkedFrom_le {a N : Int} : ∀ {rs : List (Int × Int)},
    linkedFrom a N rs = true → a ≤ N
  | [], h => by
    simp only [linkedFrom, beq_iff_eq] at h
    omega
  | (s, e) :: rest, h => by
    simp only [linkedFrom, Bool.and_eq_true, beq_iff_eq, decide_eq_true_eq] at h
    obtain ⟨⟨rfl, hse⟩, hrest⟩ := h
    have := linkedFrom_le hrest
    omega

/-- A linked chain of ranges from `a` to `N` covers exactly `[a, N)`. -/
lemma linkedFrom_mem_iff {N : Int} : ∀ {a : Int} {rs : List (Int × Int)},
    linkedFrom a N rs = true →
    ∀ x : Int, (∃ r ∈ rs, r.1 ≤ x ∧ x < r.2) ↔ a ≤ x ∧ x < N
  | a, [], h, x => by
    simp only [linkedFrom, beq_iff_eq] at h
    subst h
    simp only [List.not_mem_nil, false_and, exists_false, false_iff]
    omega
  | a, (s, e) :: rest, h, x => by
    simp only [linkedFrom, Bool.and_eq_true, beq_iff_eq, decide_eq_true_eq] at h
    obtain ⟨⟨rfl, hse⟩, hrest⟩ := h
    have hrec := linkedFrom_mem_iff hrest x
    have heN : e ≤ N := linkedFrom_le hrest
    constructor
    · rintro ⟨r, hr, hx1, hx2⟩
      rcases List.mem_cons.mp hr with rfl | hr
      · constructor
        · exact hx1
        · omega
      · have := hrec.mp ⟨r, hr, hx1, hx2⟩
        omega
    · rintro ⟨hax, hxN⟩
      by_cases hxe : x < e
      · exact ⟨(a, e), List.mem_cons_self _ _, hax, hxe⟩
      · obtain ⟨r, hr, hx⟩ := hrec.mpr ⟨by omega, hxN⟩
        exact ⟨r, List.mem_cons_of_mem _ hr, hx⟩

lemma midRanges_length (N : Int) : ∀ l : List Int, (midRanges N l).length = l.length
  | [] => rfl
  | [_] => rfl
  | _ :: b :: rest => by
    simp only [midRanges, List.length_cons, midRanges_length N (b :: rest)]

/-- `midRanges` of a strictly ascending index chain whose members lie below
`N` is linked from the first index to `N`. -/
lemma linkedFrom_midRanges (N : Int) : ∀ (a : Int) (rest : List Int),
    List.Chain' (· < ·) (a :: rest) → (∀ i ∈ a :: rest, i < N) →
    linkedFrom a N (midRanges N (a :: rest)) = true
  | a, [], _, hlt => by
    simp only [midRanges, linkedFrom, Bool.and_eq_true, beq_iff_eq, decide_eq_true_eq]
    exact ⟨⟨trivial, hlt a (List.mem_singleton_self a)⟩, by simp [linkedFrom]⟩
  | a, b :: rest, hchain, hlt => by
    simp only [midRanges, linkedFrom, Bool.and_eq_true, beq_iff_eq, decide_eq_true_eq]
    refine ⟨⟨trivial, ?_⟩, ?_⟩
    · exact (List.chain'_cons.mp hchain).1
    · exact linkedFrom_midRanges N b rest (List.chain'_cons.mp hchain).2
        (fun i hi => hlt i (List.mem_cons_of_mem a hi))

/-! ### Facts about the sorted index list -/

lemma sorted_split_indices_perm (sp : List Int) :
    List.Perm (sorted_split_indices sp) (sp.map (· - 1)) :=
  List.perm_insertionSort _ _

lemma sorted_split_indices_sorted (sp : List Int) :
    (sorted_split_indices sp).Sorted (· ≤ ·) :=
  List.sorted_insertionSort _ _

lemma mem_sorted_split_indices {sp : List Int} {x : Int} :
    x ∈ sorted_split_indices sp ↔ ∃ p ∈ sp, p - 1 = x := by
  rw [(sorted_split_indices_perm sp).mem_iff, List.mem_map]

lemma sorted_split_indices_length (sp : List Int) :
    (sorted_split_indices sp).length = sp.length := by
  rw [(sorted_split_indices_perm sp).length_eq, List.length_map]

lemma sub_one_injective : Function.Injective (fun x : Int => x - 1) :=
  fun a b hab => by simpa using hab

lemma sorted_split_indices_nodup {sp : List Int} (h : sp.Nodup) :
    (sorted_split_indices sp).Nodup :=
  ((sorted_split_indices_perm sp).symm.nodup
    (List.Nodup.map sub_one_injective h))

lemma sorted_head_le {l : List Int} (hs : l.Sorted (· ≤ ·)) {x : Int} (hx : x ∈ l) :
    l.headD 0 ≤ x := by
  match l, hx with
  | a :: t, hx =>
    rcases List.mem_cons.mp hx with rfl | hx
    · exact le_refl _
    · exact List.rel_of_sorted_cons hs x hx

lemma sorted_le_getLast? : ∀ {l : List Int}, l.Sorted (· ≤ ·) →
    ∀ {x : Int}, x ∈ l → ∀ y, l.getLast? = some y → x ≤ y
  | [], _, x, hx, _, _ => absurd hx (List.not_mem_nil x)
  | [a], _, x, hx, y, hy => by
    simp only [List.mem_singleton] at hx
    simp only [List.getLast?_singleton, Option.some.injEq] at hy
    omega
  | a :: b :: t, hs, x, hx, y, hy => by
    rw [List.getLast?_cons_cons] at hy
    rcases List.mem_cons.mp hx with rfl | hx
    · have hb : x ≤ b := List.rel_of_sorted_cons hs b (List.mem_cons_self _ _)
      have hby := sorted_le_getLast? hs.of_cons (List.mem_cons_self b t) y hy
      omega
    · exact sorted_le_getLast? hs.of_cons hx y hy

lemma sorted_le_getLastD {l : List Int} (hs : l.Sorted (· ≤ ·)) {x : Int} (hx : x ∈ l) :
    x ≤ l.getLastD 0 := by
  match l, hx with
  | a :: t, hx =>
    have hne : a :: t ≠ [] := by simp
    rw [List.getLastD_eq_getLast?, List.getLast?_eq_getLast _ hne, Option.getD_some]
    exact sorted_le_getLast? hs hx _ ((List.getLast?_eq_getLast _ hne))

/-- When the split pages are non-empty and all within `[1, num_pages]`, the
range check of `split_pdf` passes and the plan returns the built ranges. -/
lemma split_pdf_plan_eq_ok {N : Nat} {sp : List Int} (hne : sp ≠ [])
    (hb : ∀ p ∈ sp, 1 ≤ p ∧ p ≤ (N : Int)) :
    split_pdf_plan N sp = Except.ok (buildRanges (N : Int) (sorted_split_indices sp)) := by
  have hmem : ∀ x ∈ sorted_split_indices sp, 0 ≤ x ∧ x < (N : Int) := by
    intro x hx
    obtain ⟨p, hp, rfl⟩ := mem_sorted_split_indices.mp hx
    have := hb p hp
    omega
  have hlen : sorted_split_indices sp ≠ [] := by
    intro h
    apply hne
    have := sorted_split_indices_length sp
    rw [h] at this
    exact List.length_eq_zero.mp this.symm
  have hhead : (sorted_split_indices sp).headD 0 ∈ sorted_split_indices sp := by
    match hl : sorted_split_indices sp, hlen with
    | a :: t, _ => exact List.mem_cons_self _ _
  have hlast : (sorted_split_indices sp).getLastD 0 ∈ sorted_split_indices sp := by
    match hl : sorted_split_indices sp, hlen with
    | a :: t, _ =>
      rw [List.getLastD_eq_getLast?, List.getLast?_eq_getLast _ (by simp), Option.getD_some]
      exact List.getLast_mem _
  rw [split_pdf_plan, if_neg (by simpa using hne)]
  rw [if_neg]
  push_neg
  exact ⟨(hmem _ hhead).1, (hmem _ hlast).2⟩

lemma buildRanges_tiles {N : Nat} {sp : List Int} (hnd : sp.Nodup)
    (hb : ∀ p ∈ sp, 1 ≤ p ∧ p ≤ (N : Int)) (m : Int) (rest : List Int)
    (hl : sorted_split_indices sp = m :: rest) :
    tilesB (N : Int) (buildRanges (N : Int) (m :: rest)) = true := by
  have hmem : ∀ x ∈ sorted_split_indices sp, 0 ≤ x ∧ x < (N : Int) := by
    intro x hx
    obtain ⟨p, hp, rfl⟩ := mem_sorted_split_indices.mp hx
    have := hb p hp
    omega
  rw [hl] at hmem
  have hchain : List.Chain' (· < ·) (m :: rest) := by
    have hsorted := sorted_split_indices_sorted sp
    have hnodup := sorted_split_indices_nodup hnd
    rw [hl] at hsorted hnodup
    exact (hsorted.lt_of_le hnodup).chain'
  have hm0 : 0 ≤ m := (hmem m (List.mem_cons_self _ _)).1
  have hmid : linkedFrom m (N : Int) (midRanges (N : Int) (m :: rest)) = true :=
    linkedFrom_midRanges _ m rest hchain (fun i hi => (hmem i hi).2)
  by_cases hm : 0 < m
  · simp only [tilesB, buildRanges, List.headD_cons, if_pos hm, List.singleton_append,
      linkedFrom, Bool.and_eq_true, beq_iff_eq, decide_eq_true_eq]
    exact ⟨⟨trivial, hm⟩, hmid⟩
  · have : m = 0 := by omega
    subst this
    simpa only [tilesB, buildRanges, List.headD_cons, if_neg hm, List.nil_append] using hmid

/-- **C1.** For every document with `N ≥ 1` pages and every non-empty list of
distinct split points within `[1, N]`, the range-planning step of `split_pdf`
succeeds and produces an ascending linked list of half-open 0-based ranges
(no gaps, no overlaps, starting at `0`, ending at `N`) whose union is exactly
`[0, N)`, with one range per split point plus a leading range exactly when
`1` is not among the split points (i.e. the smallest split point is `> 1`);
and the 100-page example with split points `[28, 37, 85]` yields exactly
`[0,27) [27,36) [36,84) [84,100)`. -/
theorem C1_range_planner_tiling :
    (∀ (N : Nat) (sp : List Int), 1 ≤ N → sp ≠ [] → sp.Nodup →
      (∀ p ∈ sp, 1 ≤ p ∧ p ≤ (N : Int)) →
      ∃ rs, split_pdf_plan N sp = Except.ok rs ∧
        tilesB (N : Int) rs = true ∧
        (∀ x : Int, (∃ r ∈ rs, r.1 ≤ x ∧ x < r.2) ↔ 0 ≤ x ∧ x < (N : Int)) ∧
        rs.length = (if (1 : Int) ∈ sp then sp.length else sp.length + 1))
    ∧ split_pdf_plan 100 [28, 37, 85] =
        Except.ok [(0, 27), (27, 36), (36, 84), (84, 100)] := by
  constructor
  · intro N sp hN hne hnd hb
    obtain ⟨m, rest, hl⟩ : ∃ m rest, sorted_split_indices sp = m :: rest := by
      match hx : sorted_split_indices sp with
      | [] =>
        exfalso
        apply hne
        have := sorted_split_indices_length sp
        rw [hx] at this
        exact List.length_eq_zero.mp this.symm
      | a :: t => exact ⟨a, t, rfl⟩
    refine ⟨buildRanges (N : Int) (m :: rest), ?_, ?_, ?_, ?_⟩
    · rw [split_pdf_plan_eq_ok hne hb, hl]
    · exact buildRanges_tiles hnd hb m rest hl
    · exact linkedFrom_mem_iff (buildRanges_tiles hnd hb m rest hl)
    · have hmem : ∀ x ∈ sorted_split_indices sp, 0 ≤ x ∧ x < (N : Int) := by
        intro x hx
        obtain ⟨p, hp, rfl⟩ := mem_sorted_split_indices.mp hx
        have := hb p hp
        omega
      have hzero : (0 : Int) ∈ sorted_split_indices sp ↔ (1 : Int) ∈ sp := by
        rw [mem_sorted_split_indices]
        constructor
        · rintro ⟨p, hp, hp1⟩
          have : p = 1 := by omega
          subst this
          exact hp
        · intro h1
          exact ⟨1, h1, by omega⟩
      have hlen : (m :: rest).length = sp.length := by
        rw [← hl, sorted_split_indices_length]
      have hmlen : (midRanges (N : Int) (m :: rest)).length = sp.length := by
        rw [midRanges_length, hlen]
      by_cases h1 : (1 : Int) ∈ sp
      · have h0 : (0 : Int) ∈ sorted_split_indices sp := hzero.mpr h1
        have hm_le : m ≤ 0 := by
          have := sorted_head_le (sorted_split_indices_sorted sp) h0
          rwa [hl, List.headD_cons] at this
        have hm_ge : 0 ≤ m := by
          have := hmem m (by rw [hl]; exact List.mem_cons_self _ _)
          omega
        have hm : m = 0 := by omega
        subst hm
        simp only [buildRanges, List.headD_cons, lt_self_iff_false, if_neg, if_false,
          List.nil_append, hmlen, if_pos h1]
      · have h0 : (0 : Int) ∉ sorted_split_indices sp := fun h => h1 (hzero.mp h)
        have hm : 0 < m := by
          have hmm := hmem m (by rw [hl]; exact List.mem_cons_self _ _)
          have : m ≠ 0 := by
            intro h
            apply h0
            rw [hl, h]
            exact List.mem_cons_self _ _
          omega
        simp only [buildRanges, List.headD_cons, if_pos hm, List.singleton_append,
          List.length_cons, hmlen, if_neg h1]
  · rfl

/-- Witness for C1: the general statement applied to the 100-page document
with split points `[28, 37, 85]`. -/
theorem C1_range_planner_tiling_witness :
    ∃ rs, split_pdf_plan 100 [28, 37, 85] = Except.ok rs ∧
      tilesB ((100 : Nat) : Int) rs = true ∧
      (∀ x : Int, (∃ r ∈ rs, r.1 ≤ x ∧ x < r.2) ↔ 0 ≤ x ∧ x < ((100 : Nat) : Int)) ∧
      rs.length = (if (1 : Int) ∈ [(28 : Int), 37, 85] then ([(28 : Int), 37, 85]).length
        else ([(28 : Int), 37, 85]).length + 1) :=
  C1_range_planner_tiling.1 100 [28, 37, 85] (by decide) (by decide) (by decide) (by decide)

lemma range_check_iff (N : Nat) {sp : List Int} (hne : sp ≠ []) :
    ((sorted_split_indices sp).headD 0 < 0 ∨
        (N : Int) ≤ (sorted_split_indices sp).getLastD 0) ↔
      (∃ p ∈ sp, p < 1) ∨ ∃ p ∈ sp, (N : Int) < p := by
  obtain ⟨m, rest, hl⟩ : ∃ m rest, sorted_split_indices sp = m :: rest := by
    match hx : sorted_split_indices sp with
    | [] =>
      exfalso
      apply hne
      have := sorted_split_indices_length sp
      rw [hx] at this
      exact List.length_eq_zero.mp this.symm
    | a :: t => exact ⟨a, t, rfl⟩
  have hhead_mem : (sorted_split_indices sp).headD 0 ∈ sorted_split_indices sp := by
    rw [hl, List.headD_cons]
    exact List.mem_cons_self _ _
  have hlast_mem : (sorted_split_indices sp).getLastD 0 ∈ sorted_split_indices sp := by
    rw [hl, List.getLastD_eq_getLast?, List.getLast?_eq_getLast _ (by simp), Option.getD_some]
    exact List.getLast_mem _
  constructor
  · rintro (hhead | hlast)
    · left
      obtain ⟨p, hp, hpx⟩ := mem_sorted_split_indices.mp hhead_mem
      exact ⟨p, hp, by omega⟩
    · right
      obtain ⟨p, hp, hpx⟩ := mem_sorted_split_indices.mp hlast_mem
      exact ⟨p, hp, by omega⟩
  · rintro (⟨p, hp, hp1⟩ | ⟨p, hp, hpN⟩)
    · left
      have hmem : p - 1 ∈ sorted_split_indices sp := mem_sorted_split_indices.mpr ⟨p, hp, rfl⟩
      have := sorted_head_le (sorted_split_indices_sorted sp) hmem
      omega
    · right
      have hmem : p - 1 ∈ sorted_split_indices sp := mem_sorted_split_indices.mpr ⟨p, hp, rfl⟩
      have := sorted_le_getLastD (sorted_split_indices_sorted sp) hmem
      omega

/-- **C7.** The range-planning step of `split_pdf` raises its
invalid-split-points `ValueError` exactly when the split-page list is empty,
or some split page is `< 1` (equivalently, the minimum is `< 1`), or some
split page exceeds the page count (equivalently, the maximum is `> N`). -/
theorem C7_plan_error_iff (N : Nat) (sp : List Int) :
    (∃ e, split_pdf_plan N sp = Except.error e) ↔
      sp = [] ∨ (∃ p ∈ sp, p < 1) ∨ ∃ p ∈ sp, (N : Int) < p := by
  by_cases hne : sp = []
  · subst hne
    simp [split_pdf_plan]
  · have hiff := range_check_iff N hne
    rw [split_pdf_plan, if_neg (by simpa using hne)]
    by_cases hc : (sorted_split_indices sp).headD 0 < 0 ∨
        (N : Int) ≤ (sorted_split_indices sp).getLastD 0
    · simp only [if_pos hc]
      exact Iff.intro (fun _ => Or.inr (hiff.mp hc)) (fun _ => ⟨_, rfl⟩)
    · simp only [if_neg hc]
      constructor
      · rintro ⟨e, he⟩
        cases he
      · rintro (h | h)
        · exact absurd h hne
        · exact absurd (hiff.mpr h) hc

/-- Witness for C7: split point `6` on a 5-page document is rejected. -/
theorem C7_plan_error_iff_witness :
    ∃ e, split_pdf_plan 5 [6] = Except.error e :=
  (C7_plan_error_iff 5 [6]).mpr (Or.inr (Or.inr ⟨6, by decide, by decide⟩))

/-! ### C2 — duplicate split points are *not* deduplicated -/

lemma sorted_two_count_adjacent : ∀ {l : List Int}, l.Sorted (· ≤ ·) →
    ∀ {x : Int}, 2 ≤ l.count x → ∃ l1 l2, l = l1 ++ x :: x :: l2
  | [], _, x, hc => by simp at hc
  | a :: t, hs, x, hc => by
    by_cases hax : x = a
    · subst hax
      have hmem : x ∈ t := by
        rw [List.count_cons_self] at hc
        exact List.count_pos_iff.mp (by omega)
      match t, hmem with
      | b :: t', hmem =>
        have hab : x ≤ b := List.rel_of_sorted_cons hs b (List.mem_cons_self _ _)
        have hbx : b = x := by
          rcases List.mem_cons.mp hmem with h | hmem'
          · omega
          · have := List.rel_of_sorted_cons hs.of_cons x hmem'
            omega
        subst hbx
        exact ⟨[], t', rfl⟩
    · have hct : 2 ≤ t.count x := by
        rwa [List.count_cons_of_ne hax] at hc
      obtain ⟨l1, l2, rfl⟩ := sorted_two_count_adjacent hs.of_cons hct
      exact ⟨a :: l1, l2, rfl⟩

lemma midRanges_mem_dup (N x : Int) : ∀ (l1 l2 : List Int),
    (x, x) ∈ midRanges N (l1 ++ x :: x :: l2)
  | [], l2 => by
    show (x, x) ∈ midRanges N (x :: x :: l2)
    exact List.mem_cons_self _ _
  | a :: l1', l2 => by
    have h := midRanges_mem_dup N x l1' l2
    cases hl : l1' ++ x :: x :: l2 with
    | nil => exact absurd hl (by simp)
    | cons b t =>
      rw [hl] at h
      simp only [List.cons_append, hl]
      exact List.mem_cons_of_mem _ h

/-- Counterexample to **C2** as stated: `split_pdf` does not deduplicate.
On a 3-page document with duplicated split point `2`, the planned ranges are
`[(0,1), (1,1), (1,3)]`, which contain the zero-length range `(1,1)`. -/
theorem C2_no_dedup_counterexample :
    split_pdf_plan 3 [2, 2] = Except.ok [(0, 1), (1, 1), (1, 3)] ∧
      ((1 : Int), (1 : Int)) ∈ [((0 : Int), (1 : Int)), (1, 1), (1, 3)] := by
  constructor
  · rfl
  · decide

/-- **C2 (amended).** `split_pdf` sorts but does **not** deduplicate its split
points: for every in-range split-point list in which some value `p` occurs at
least twice, the planned range list contains the zero-length range
`(p-1, p-1)`. -/
theorem C2_duplicates_zero_length_range (N : Nat) (sp : List Int) (p : Int)
    (hb : ∀ q ∈ sp, 1 ≤ q ∧ q ≤ (N : Int)) (hc : 2 ≤ sp.count p) :
    ∃ rs, split_pdf_plan N sp = Except.ok rs ∧ (p - 1, p - 1) ∈ rs := by
  have hmem : p ∈ sp := List.count_pos_iff.mp (by omega)
  have hne : sp ≠ [] := List.ne_nil_of_mem hmem
  have hcount : 2 ≤ (sorted_split_indices sp).count (p - 1) := by
    have h1 : (sorted_split_indices sp).count (p - 1) = (sp.map (· - 1)).count (p - 1) :=
      (sorted_split_indices_perm sp).count_eq _
    have h2 : (sp.map (· - 1)).count (p - 1) = sp.count p :=
      List.count_map_of_injective sp (· - 1) (fun a b hab => by simpa using hab) p
    omega
  obtain ⟨l1, l2, hl⟩ :=
    sorted_two_count_adjacent (sorted_split_indices_sorted sp) hcount
  refine ⟨buildRanges (N : Int) (sorted_split_indices sp), split_pdf_plan_eq_ok hne hb, ?_⟩
  rw [buildRanges, hl]
  exact List.mem_append_right _ (midRanges_mem_dup _ _ l1 l2)

/-- Witness for the amended C2: duplicated split point `2` on a 3-page
document yields the zero-length range `(1, 1)`. -/
theorem C2_duplicates_zero_length_range_witness :
    ∃ rs, split_pdf_plan 3 [2, 2] = Except.ok rs ∧
      ((2 : Int) - 1, (2 : Int) - 1) ∈ rs :=
  C2_duplicates_zero_length_range 3 [2, 2] 2 (by decide) (by decide)

/-! ## Metadata copy during part assembly (`split_pdf`, splitter.py lines 91-97)

`for k, v in pdf.docinfo.items(): if isinstance(v, str): new_pdf.docinfo[k] = v`
A docinfo value is modelled as either a string or a non-string object; the
docinfo dictionary as an association list in iteration order. -/

inductive PdfVal
  | str (s : String)
  | nonStr
deriving DecidableEq

/-- The docinfo copy loop of `split_pdf` (splitter.py lines 93-95): copy
exactly the string-valued entries, in order.  The source has no length
check here. -/
def copy_docinfo : List (String × PdfVal) → List (String × String)
  | [] => []
  | (k, PdfVal.str s) :: rest => (k, s) :: copy_docinfo rest
  | (_, PdfVal.nonStr) :: rest => copy_docinfo rest

/-- A 1001-character string, longer than the documented ~1000-character cap. -/
def over_cap_string : String := String.mk (List.replicate 1001 'x')

/-- Counterexample to **C5** as stated: the docinfo copy of `split_pdf` has
no length cap — a 1001-character string value is copied verbatim rather than
dropped.  (The `< 1000` length cap exists only in `PDFValidator.repair_pdf`.) -/
theorem C5_metadata_cap_counterexample :
    copy_docinfo [("Title", PdfVal.str over_cap_string)] = [("Title", over_cap_string)] ∧
      1000 < over_cap_string.length := by
  refine ⟨rfl, ?_⟩
  show (1000 : Nat) < (List.replicate 1001 'x').length
  rw [List.length_replicate]
  omega

/-- **C5 (amended).** During assembly of each output part, the docinfo copy
copies exactly the string-valued entries of the source metadata dictionary,
regardless of their length: non-string values are dropped, but no length cap
is applied (over-cap string fields are copied, not dropped). -/
theorem C5_metadata_copy_strings_only (d : List (String × PdfVal)) :
    copy_docinfo d = d.filterMap (fun kv =>
      match kv.2 with
      | PdfVal.str s => some (kv.1, s)
      | PdfVal.nonStr => none) := by
  induction d with
  | nil => rfl
  | cons kv rest ih =>
    obtain ⟨k, v⟩ := kv
    cases v with
    | str s => simp [copy_docinfo, List.filterMap_cons, ih]
    | nonStr => simp [copy_docinfo, List.filterMap_cons, ih]

/-! ## Input validation and repair in the HTTP layer
(`validate_and_repair_input_pdf`, split.py lines 22-72)

The function builds `pdf_buffer = BytesIO(contents)`, runs
`comprehensive_validation` on it, and then decides what bytes to return.
The outcome of `comprehensive_validation` is modelled as explicit data
(`ComprehensiveResult`); the byte buffer as `List Nat`.  Crucially, in the
`repair_successful` branch the source executes `pdf_buffer.seek(0);
repaired_contents = pdf_buffer.read()` — re-reading the buffer that still
holds the *original upload*, not `validation_result["repaired_buffer"]`. -/

structure ComprehensiveResult where
  is_valid : Bool
  needs_repair : Bool
  repair_successful : Bool
  repaired_buffer : Option (List Nat)
deriving DecidableEq

/-- `validate_and_repair_input_pdf` (split.py lines 22-72), returning the
working bytes and the validation info.  Every branch returns `contents`
because `pdf_buffer.read()` yields the bytes the buffer was constructed
from — the original upload; `vr.repaired_buffer` is never consulted. -/
def validate_and_repair_input_pdf (contents : List Nat) (vr : ComprehensiveResult) :
    List Nat × ComprehensiveResult :=
  if vr.is_valid then
    (contents, vr)
  else if vr.needs_repair then
    if vr.repair_successful then
      (contents, vr)
    else
      (contents, vr)
  else
    (contents, vr)

/-- **C4 (code bug).** The working copy handed to the rest of the pipeline is
*always* the original upload: even when the input was invalid and repair
succeeded with different repaired bytes, `validate_and_repair_input_pdf`
returns the original bytes (it re-reads `pdf_buffer`, which holds the
upload), so the temp file and the no-split fallback deliver the original,
not the repaired document — contradicting the source's own
"Get the repaired content" comment and its "successfully repaired" log. -/
theorem C4_repaired_bytes_ignored :
    (∀ (contents : List Nat) (vr : ComprehensiveResult),
      (validate_and_repair_input_pdf contents vr).1 = contents)
    ∧ (validate_and_repair_input_pdf [1, 2, 3]
        ⟨false, true, true, some [9, 9, 9]⟩).1 ≠ [9, 9, 9] := by
  constructor
  · intro contents vr
    rw [validate_and_repair_input_pdf]
    split
    · rfl
    · split
      · split
        · rfl
        · rfl
      · rfl
  · decide

/-! ## The split endpoint's fallback policy (`split_endpoint`, split.py lines 193-292)

The `pages` form field goes through `json.loads`, a presence/non-emptiness
check, `SplitRequest` parsing, and a range check against the working
document's page count; every failure sets `should_split = False`.  The four
parse outcomes are modelled as `PagesField`; the delivered response as
`Delivery`.  The guard at lines 161-176 (HTTP 400 for an invalid,
unrepaired upload) is included; `split_pdf` itself is abstracted as a
function that may fail (`Except`), since its exceptions are caught and
also fall back to the original document (lines 259-264). -/

inductive PagesField
  | invalid_json
  | missing_or_empty
  | parse_failure
  | parsed (split_pages : List Int)

inductive Delivery
  | http_error (status : Nat)
  | original_pdf (body : List Nat)
  | multipart (parts : Nat)
deriving DecidableEq

/-- The `should_split` / `split_pages` computation (split.py lines 193-250):
any parse failure yields `False`, and a parsed list is rejected when any
page is out of `[1, num_pages]`. -/
def pages_decision (num_pages : Nat) (pf : PagesField) : Bool × List Int :=
  match pf with
  | PagesField.parsed sp =>
      (!(sp.any fun p => decide (p < 1) || decide ((num_pages : Int) < p)), sp)
  | _ => (false, [])

/-- `split_endpoint` after upload-size checking (split.py lines 156-292):
HTTP 400 only when the input is invalid and unrepaired; otherwise either a
multipart response from `split_pdf`, or the original (validated/repaired)
working bytes when splitting is declined or `split_pdf` raises. -/
def split_endpoint_model (is_valid repair_successful : Bool)
    (repaired_contents : List Nat) (num_pages : Nat) (pf : PagesField)
    (split_fn : List Int → Except String Nat) : Delivery :=
  if !is_valid && !repair_successful then
    Delivery.http_error 400
  else
    let d := pages_decision num_pages pf
    if d.1 then
      match split_fn d.2 with
      | Except.ok n => Delivery.multipart n
      | Except.error _ => Delivery.original_pdf repaired_contents
    else
      Delivery.original_pdf repaired_contents

/-- **C3.** For a valid (or successfully repaired) upload, an empty/absent
split-point set, a payload that fails JSON or `SplitRequest` parsing, or any
out-of-range split point never produces an error response: the endpoint
delivers the working (validated/repaired) bytes as a single document. -/
theorem C3_fallback_over_failure (is_valid repair_successful : Bool)
    (repaired_contents : List Nat) (num_pages : Nat) (pf : PagesField)
    (split_fn : List Int → Except String Nat)
    (hok : is_valid = true ∨ repair_successful = true)
    (hbad : pf = PagesField.invalid_json ∨ pf = PagesField.missing_or_empty ∨
      pf = PagesField.parse_failure ∨
      ∃ sp, pf = PagesField.parsed sp ∧ ∃ p ∈ sp, p < 1 ∨ (num_pages : Int) < p) :
    split_endpoint_model is_valid repair_successful repaired_contents num_pages pf split_fn
      = Delivery.original_pdf repaired_contents := by
  have hguard : (!is_valid && !repair_successful) = false := by
    rcases hok with h | h <;> simp [h]
  rw [split_endpoint_model, hguard]
  simp only [Bool.false_eq_true, if_false]
  have hd : (pages_decision num_pages pf).1 = false := by
    rcases hbad with rfl | rfl | rfl | ⟨sp, rfl, p, hp, hout⟩
    · rfl
    · rfl
    · rfl
    · simp only [pages_decision, Bool.not_eq_false', List.any_eq_true]
      exact ⟨p, hp, by rcases hout with h | h <;> simp [h]⟩
  rw [if_neg (by simp [hd])]

/-- Witness for C3: a valid 5-page document with out-of-range split point
`7` falls back to the original bytes, for any behaviour of `split_pdf`. -/
theorem C3_fallback_over_failure_witness :
    split_endpoint_model true false [1, 2] 5 (PagesField.parsed [7])
      (fun _ => Except.ok 2) = Delivery.original_pdf [1, 2] :=
  C3_fallback_over_failure true false [1, 2] 5 (PagesField.parsed [7]) _
    (Or.inl rfl)
    (Or.inr (Or.inr (Or.inr ⟨[7], rfl, 7, by decide, Or.inr (by decide)⟩)))

/-! ## Substring machinery

The validator classifies an issue as critical via Python's
`keyword in issue.lower()`.  `hasSubL s pat` is containment of `pat` in `s`
over character lists; `pairOcc c1 c2 s` is occurrence of the adjacent pair
`c1, c2`, used to refute containment of keywords in issue strings that embed
arbitrary decimal renderings. -/

def subAt : List Char → List Char → Bool
  | [], _ => true
  | _ :: _, [] => false
  | a :: p, b :: s => a == b && subAt p s

def hasSubL (s pat : List Char) : Bool :=
  (List.range (s.length + 1)).any fun i => subAt pat (s.drop i)

lemma subAt_iff : ∀ {p t : List Char}, subAt p t = true ↔ ∃ b, t = p ++ b
  | [], t => by simp [subAt]
  | a :: p, [] => by simp [subAt]
  | a :: p, c :: t => by
    simp only [subAt, Bool.and_eq_true, beq_iff_eq]
    constructor
    · rintro ⟨rfl, h⟩
      obtain ⟨b, rfl⟩ := subAt_iff.mp h
      exact ⟨b, rfl⟩
    · rintro ⟨b, hb⟩
      rw [List.cons_append] at hb
      injection hb with h1 h2
      exact ⟨h1.symm, subAt_iff.mpr ⟨b, h2⟩⟩

lemma hasSubL_iff {s pat : List Char} :
    hasSubL s pat = true ↔ ∃ a b, s = a ++ pat ++ b := by
  simp only [hasSubL, List.any_eq_true, List.mem_range]
  constructor
  · rintro ⟨i, _, hsub⟩
    obtain ⟨b, hb⟩ := subAt_iff.mp hsub
    refine ⟨s.take i, b, ?_⟩
    conv_lhs => rw [← List.take_append_drop i s]
    rw [hb, List.append_assoc]
  · rintro ⟨a, b, rfl⟩
    refine ⟨a.length, ?_, ?_⟩
    · simp only [List.append_assoc, List.length_append]
      omega
    · rw [List.append_assoc, List.drop_left]
      exact subAt_iff.mpr ⟨b, rfl⟩

lemma hasSubL_trans {s pat q : List Char} (h1 : hasSubL s pat = true)
    (h2 : hasSubL pat q = true) : hasSubL s q = true := by
  obtain ⟨a, b, rfl⟩ := hasSubL_iff.mp h1
  obtain ⟨c, d, rfl⟩ := hasSubL_iff.mp h2
  exact hasSubL_iff.mpr ⟨a ++ c, d ++ b, by simp⟩

lemma hasSubL_singleton {s : List Char} {c : Char} :
    hasSubL s [c] = true ↔ c ∈ s := by
  rw [hasSubL_iff]
  constructor
  · rintro ⟨a, b, rfl⟩
    simp
  · intro h
    obtain ⟨a, b, rfl⟩ := List.append_of_mem h
    exact ⟨a, b, by simp⟩

lemma hasSubL_append_left {s pat : List Char} (x : List Char)
    (h : hasSubL s pat = true) : hasSubL (x ++ s) pat = true := by
  obtain ⟨a, b, rfl⟩ := hasSubL_iff.mp h
  exact hasSubL_iff.mpr ⟨x ++ a, b, by simp⟩

lemma hasSubL_append_right {s pat : List Char} (y : List Char)
    (h : hasSubL s pat = true) : hasSubL (s ++ y) pat = true := by
  obtain ⟨a, b, rfl⟩ := hasSubL_iff.mp h
  exact hasSubL_iff.mpr ⟨a, b ++ y, by simp⟩

def pairOcc (c1 c2 : Char) : List Char → Bool
  | [] => false
  | [_] => false
  | a :: b :: t => (a == c1 && b == c2) || pairOcc c1 c2 (b :: t)

lemma pairOcc_iff {c1 c2 : Char} : ∀ {s : List Char},
    pairOcc c1 c2 s = true ↔ ∃ a b, s = a ++ c1 :: c2 :: b
  | [] => by
    constructor
    · intro h
      cases h
    · rintro ⟨a, b, hab⟩
      exact absurd hab.symm (by simp)
  | [x] => by
    constructor
    · intro h
      rw [show pairOcc c1 c2 [x] = false from rfl] at h
      cases h
    · rintro ⟨a, b, hab⟩
      match a, hab with
      | [], hab => cases hab
      | [y], hab => cases hab
      | y :: z :: t, hab => cases hab
  | x :: y :: t => by
    rw [show pairOcc c1 c2 (x :: y :: t)
      = ((x == c1 && y == c2) || pairOcc c1 c2 (y :: t)) from rfl]
    simp only [Bool.or_eq_true, Bool.and_eq_true, beq_iff_eq]
    constructor
    · rintro (⟨rfl, rfl⟩ | h)
      · exact ⟨[], t, rfl⟩
      · obtain ⟨a, b, hab⟩ := pairOcc_iff.mp h
        exact ⟨x :: a, b, by rw [List.cons_append, ← hab]⟩
    · rintro ⟨a, b, hab⟩
      match a, hab with
      | [], hab =>
        injection hab with h1 h2
        injection h2 with h2 h3
        subst h1; subst h2; subst h3
        exact Or.inl ⟨rfl, rfl⟩
      | z :: a', hab =>
        injection hab with h1 h2
        subst h1
        exact Or.inr (pairOcc_iff.mpr ⟨a', b, h2⟩)

lemma pairOcc_mem_left {c1 c2 : Char} {s : List Char}
    (h : pairOcc c1 c2 s = true) : c1 ∈ s := by
  obtain ⟨a, b, rfl⟩ := pairOcc_iff.mp h
  simp

lemma hasSubL_pair {c1 c2 : Char} {s : List Char} :
    hasSubL s [c1, c2] = true ↔ pairOcc c1 c2 s = true := by
  rw [hasSubL_iff, pairOcc_iff]
  constructor <;> rintro ⟨a, b, rfl⟩ <;> exact ⟨a, b, by simp⟩

lemma pairOcc_append (c1 c2 : Char) : ∀ (x y : List Char),
    pairOcc c1 c2 (x ++ y) = true ↔
      pairOcc c1 c2 x = true ∨ pairOcc c1 c2 y = true ∨
        (x.getLast? = some c1 ∧ y.head? = some c2)
  | [], y => by simp [pairOcc]
  | [a], y => by
    cases y with
    | nil => simp [pairOcc, List.append_nil]
    | cons b t =>
      show pairOcc c1 c2 (a :: b :: t) = true ↔ _
      rw [show pairOcc c1 c2 (a :: b :: t)
        = ((a == c1 && b == c2) || pairOcc c1 c2 (b :: t)) from rfl]
      simp only [show pairOcc c1 c2 [a] = false from rfl, Bool.false_eq_true,
        List.getLast?_singleton, List.head?_cons, Option.some.injEq,
        Bool.or_eq_true, Bool.and_eq_true, beq_iff_eq, false_or]
      tauto
  | a :: b :: t, y => by
    have IH := pairOcc_append c1 c2 (b :: t) y
    show ((a == c1 && b == c2) || pairOcc c1 c2 ((b :: t) ++ y)) = true ↔ _
    rw [List.getLast?_cons_cons]
    rw [show pairOcc c1 c2 (a :: b :: t)
      = ((a == c1 && b == c2) || pairOcc c1 c2 (b :: t)) from rfl]
    simp only [Bool.or_eq_true, Bool.and_eq_true, beq_iff_eq, IH]
    tauto

/-- No occurrence of `kw` in `s` as soon as a single character of `kw` is
absent from `s`. -/
lemma not_hasSubL_char (c : Char) {s kw : List Char}
    (hkw : hasSubL kw [c] = true) (hc : c ∉ s) : hasSubL s kw = false := by
  rw [Bool.eq_false_iff]
  intro h
  exact hc (hasSubL_singleton.mp (hasSubL_trans h hkw))

/-- No occurrence of `kw` in `s` as soon as an adjacent pair of `kw` never
occurs in `s`. -/
lemma not_hasSubL_pair (c1 c2 : Char) {s kw : List Char}
    (hkw : hasSubL kw [c1, c2] = true) (hs : pairOcc c1 c2 s = false) :
    hasSubL s kw = false := by
  rw [Bool.eq_false_iff]
  intro h
  have h2 := hasSubL_pair.mp (hasSubL_trans h hkw)
  rw [h2] at hs
  cases hs

/-! ## Decimal rendering

Python's f-strings render the interpolated page indices, dimensions and
rotations with `str`; `natRepr`/`intRepr` are the standard decimal rendering
(identical output), kept structural so that proofs can track the character
set of the rendered text. -/

def digitChar : Nat → Char
  | 0 => '0'
  | 1 => '1'
  | 2 => '2'
  | 3 => '3'
  | 4 => '4'
  | 5 => '5'
  | 6 => '6'
  | 7 => '7'
  | 8 => '8'
  | _ => '9'

def digit_char_list : List Char := ['0', '1', '2', '3', '4', '5', '6', '7', '8', '9']

/-- `-` and the ten digits: every character a rendered integer can contain. -/
def num_char_list : List Char := '-' :: digit_char_list

lemma digitChar_mem : ∀ k : Nat, digitChar k ∈ digit_char_list
  | 0 | 1 | 2 | 3 | 4 | 5 | 6 | 7 | 8 => by decide
  | n + 9 => (by decide : ('9' : Char) ∈ digit_char_list)

/-- Big-endian decimal digits of `n`, with explicit fuel (`fuel = n` is
always enough since `n` is at least as large as its digit count). -/
def natDigitsAux : Nat → Nat → List Char
  | 0, _ => []
  | fuel + 1, n =>
    if n = 0 then [] else natDigitsAux fuel (n / 10) ++ [digitChar (n % 10)]

/-- Decimal rendering of a natural number, as Python `str`. -/
def natRepr (n : Nat) : String :=
  if n = 0 then "0" else String.mk (natDigitsAux n n)

/-- Decimal rendering of an integer, as Python `str`. -/
def intRepr : Int → String
  | Int.ofNat m => natRepr m
  | Int.negSucc m => "-" ++ natRepr (m + 1)

lemma natDigitsAux_subset : ∀ (fuel n : Nat), ∀ c ∈ natDigitsAux fuel n, c ∈ digit_char_list
  | 0, _, c, h => absurd h (List.not_mem_nil c)
  | fuel + 1, n, c, h => by
    rw [natDigitsAux] at h
    split at h
    · cases h
    · rcases List.mem_append.mp h with h | h
      · exact natDigitsAux_subset fuel _ c h
      · rw [List.mem_singleton] at h
        subst h
        exact digitChar_mem _

lemma natRepr_subset (n : Nat) : ∀ c ∈ (natRepr n).data, c ∈ num_char_list := by
  intro c hc
  rw [natRepr] at hc
  split at hc
  · rw [show ("0" : String).data = ['0'] from rfl] at hc
    rw [List.mem_singleton] at hc
    subst hc
    decide
  · exact List.mem_cons_of_mem _ (natDigitsAux_subset n n c hc)

lemma intRepr_subset (i : Int) : ∀ c ∈ (intRepr i).data, c ∈ num_char_list := by
  intro c hc
  cases i with
  | ofNat m => exact natRepr_subset m c hc
  | negSucc m =>
    rw [intRepr, show (("-" ++ natRepr (m + 1)) : String).data
      = ['-'] ++ (natRepr (m + 1)).data from rfl] at hc
    rcases List.mem_append.mp hc with h | h
    · rw [List.mem_singleton] at h
      subst h
      decide
    · exact natRepr_subset (m + 1) c h

lemma natDigitsAux_ne_nil : ∀ (fuel n : Nat), n ≠ 0 → fuel ≠ 0 →
    natDigitsAux fuel n ≠ []
  | 0, _, _, hf => absurd rfl hf
  | fuel + 1, n, hn, _ => by
    rw [natDigitsAux, if_neg hn]
    simp

lemma natRepr_data_ne_nil (n : Nat) : (natRepr n).data ≠ [] := by
  rw [natRepr]
  split
  · simp [show ("0" : String).data = ['0'] from rfl]
  · next h => exact natDigitsAux_ne_nil n n h h

/-! ## Lowercasing

Python's `issue.lower()` maps each character to lower case; for the ASCII
issue strings of the validator this is exactly `Char.toLower` on each
character. -/

def lowerStr (s : String) : String := String.mk (s.data.map Char.toLower)

lemma num_char_toLower : ∀ c ∈ num_char_list, Char.toLower c = c := by decide

lemma lower_num_subset {D : List Char} (h : ∀ c ∈ D, c ∈ num_char_list) :
    ∀ c ∈ D.map Char.toLower, c ∈ num_char_list := by
  intro c hc
  obtain ⟨d, hd, rfl⟩ := List.mem_map.mp hc
  rw [num_char_toLower d (h d hd)]
  exact h d hd

/-! ## Refuting keyword occurrence in block-structured strings

The advisory issue strings have the shape
`A ++ D1 ++ B ++ D2` with `A`, `B` concrete and `D1`, `D2` rendered numbers.
A critical keyword cannot occur in them when one of its characters, or one
of its adjacent pairs, cannot occur. -/

lemma head?_append_of_ne_nil {l1 l2 : List Char} (h : l1 ≠ []) :
    (l1 ++ l2).head? = l1.head? := by
  match l1, h with
  | a :: t, _ => rfl

lemma mem_of_head?_eq {l : List Char} {a : Char} (h : l.head? = some a) : a ∈ l := by
  match l, h with
  | b :: t, h =>
    rw [List.head?_cons, Option.some.injEq] at h
    subst h
    exact List.mem_cons_self _ _

lemma mem_of_getLast?_eq {l : List Char} {a : Char} (h : l.getLast? = some a) : a ∈ l := by
  match l, h with
  | b :: t, h =>
    rw [List.getLast?_eq_getLast _ (by simp), Option.some.injEq] at h
    subst h
    exact List.getLast_mem _

lemma not_hasSubL_pair_str (kw : String) (c1 c2 : Char) {s : List Char}
    (hkw : hasSubL kw.data [c1, c2] = true) (hs : pairOcc c1 c2 s = false) :
    hasSubL s kw.data = false :=
  not_hasSubL_pair c1 c2 hkw hs

lemma not_hasSubL_char_str (kw : String) (c : Char) {s : List Char}
    (hkw : hasSubL kw.data [c] = true) (hc : c ∉ s) :
    hasSubL s kw.data = false :=
  not_hasSubL_char c hkw hc

/-- The adjacent pair `c1 c2` cannot occur in `A ++ D1 ++ B ++ D2` when it
occurs in neither concrete block and both of its characters are
non-numeric while `D1`, `D2` contain only numeric characters. -/
lemma pairOcc_blocks_false {c1 c2 : Char} (A D1 B D2 : List Char)
    (hA : pairOcc c1 c2 A = false) (hB : pairOcc c1 c2 B = false)
    (hD1 : ∀ c ∈ D1, c ∈ num_char_list) (hD2 : ∀ c ∈ D2, c ∈ num_char_list)
    (hD1ne : D1 ≠ [])
    (hc1 : c1 ∉ num_char_list) (hc2 : c2 ∉ num_char_list) :
    pairOcc c1 c2 (A ++ (D1 ++ (B ++ D2))) = false := by
  rw [Bool.eq_false_iff]
  intro h
  rcases (pairOcc_append c1 c2 A (D1 ++ (B ++ D2))).mp h with h | h | ⟨_, hhead⟩
  · rw [h] at hA
    cases hA
  · rcases (pairOcc_append c1 c2 D1 (B ++ D2)).mp h with h | h | ⟨hlast, _⟩
    · exact hc1 (hD1 c1 (pairOcc_mem_left h))
    · rcases (pairOcc_append c1 c2 B D2).mp h with h | h | ⟨_, hhead⟩
      · rw [h] at hB
        cases hB
      · exact hc1 (hD2 c1 (pairOcc_mem_left h))
      · exact hc2 (hD2 c2 (mem_of_head?_eq hhead))
    · exact hc1 (hD1 c1 (mem_of_getLast?_eq hlast))
  · rw [head?_append_of_ne_nil hD1ne] at hhead
    exact hc2 (hD1 c2 (mem_of_head?_eq hhead))

/-- The character `c` cannot occur in `A ++ D1 ++ B ++ D2` when it is in
neither concrete block and is non-numeric. -/
lemma char_notMem_blocks {c : Char} (A D1 B D2 : List Char)
    (hA : c ∉ A) (hB : c ∉ B)
    (hD1 : ∀ x ∈ D1, x ∈ num_char_list) (hD2 : ∀ x ∈ D2, x ∈ num_char_list)
    (hc : c ∉ num_char_list) :
    c ∉ A ++ (D1 ++ (B ++ D2)) := by
  intro h
  rcases List.mem_append.mp h with h | h
  · exact hA h
  · rcases List.mem_append.mp h with h | h
    · exact hc (hD1 c h)
    · rcases List.mem_append.mp h with h | h
      · exact hB h
      · exact hc (hD2 c h)

/-! ## Structural validation (`PDFValidator.validate_pdf_structure`, validator.py lines 10-127)

A page either exposes its properties (mediabox as optional width/height,
rotation, whether the `Contents` object is inaccessible) or raises during
inspection (`VPage.fault` with the exception text, validator.py lines
77-82).  A buffer either opens to a document or raises at `pikepdf.open`
(`VBuffer.corrupt`, caught at lines 108-110).  `hasattr(pdf, "pages")` is
always true for an opened `pikepdf.Pdf`, so that branch is not modelled.
Issue strings are built exactly as the source's f-strings. -/

inductive VPage
  | ok (mediabox : Option (Int × Int)) (rotation : Int) (contents_bad : Bool)
  | fault (msg : String)

structure VDoc where
  pages : List VPage
  docinfo : List (String × PdfVal)
  is_encrypted : Bool

inductive VBuffer
  | openable (doc : VDoc)
  | corrupt (err : String)

/-- An ASCII apostrophe (the source's f-string quotes the metadata key). -/
def apos : String := String.mk [Char.ofNat 39]

def no_pages_issue : String := "PDF has no pages"

def no_mediabox_issue (i : Nat) : String :=
  "Page " ++ natRepr (i + 1) ++ " has no mediabox"

def invalid_dims_issue (i : Nat) (w h : Int) : String :=
  "Page " ++ (natRepr (i + 1) ++ (" has invalid dimensions: "
    ++ (intRepr w ++ ("x" ++ intRepr h))))

def invalid_rotation_issue (i : Nat) (rot : Int) : String :=
  "Page " ++ (natRepr (i + 1) ++ (" has invalid rotation: " ++ intRepr rot))

def contents_issue (i : Nat) : String :=
  "Page " ++ (natRepr (i + 1) ++ " has inaccessible Contents object")

def page_fault_issue (i : Nat) (msg : String) : String :=
  "Page " ++ (natRepr (i + 1) ++ (" validation failed: " ++ msg))

def metadata_long_issue (k : String) (n : Nat) : String :=
  "Metadata field " ++ apos ++ k ++ apos ++ " is unusually long ("
    ++ natRepr n ++ " chars)"

def encrypted_issue : String := "PDF is encrypted (may cause compatibility issues)"

def structure_fail_issue (e : String) : String :=
  "PDF structure validation failed: " ++ e

/-- The page-fault filter of validator.py lines 79-82: errors whose text
contains this marker are silently skipped. -/
def obj_skip_marker : String := "Object is not a Dictionary or Stream"

/-- Issues produced for one page (validator.py lines 31-82): missing
mediabox short-circuits (`continue`); otherwise dimension, rotation and
contents checks in order; a raising page contributes its fault text unless
it matches the skip marker. -/
def page_issues (i : Nat) : VPage → List String
  | VPage.fault msg =>
    if hasSubL msg.data obj_skip_marker.data then [] else [page_fault_issue i msg]
  | VPage.ok mb rot contents_bad =>
    match mb with
    | none => [no_mediabox_issue i]
    | some (w, h) =>
      (if w ≤ 0 ∨ h ≤ 0 then [invalid_dims_issue i w h] else [])
        ++ (if rot ∈ ([0, 90, 180, 270] : List Int) then []
            else [invalid_rotation_issue i rot])
        ++ (if contents_bad then [contents_issue i] else [])

/-- The `for i, page in enumerate(pdf.pages)` loop (validator.py line 31). -/
def pages_issues (i : Nat) : List VPage → List String
  | [] => []
  | p :: rest => page_issues i p ++ pages_issues (i + 1) rest

/-- The docinfo metadata check (validator.py lines 84-95): string values
longer than 10000 characters are flagged. -/
def docinfo_issues : List (String × PdfVal) → List String
  | [] => []
  | (k, PdfVal.str s) :: rest =>
    (if 10000 < s.length then [metadata_long_issue k s.length] else [])
      ++ docinfo_issues rest
  | (_, PdfVal.nonStr) :: rest => docinfo_issues rest

/-- The critical-keyword list of validator.py lines 116-124 (note: it
contains a fourth entry, `"could not repair"`). -/
def critical_keywords : List String :=
  ["has no pages", "has no mediabox", "invalid dimensions", "could not repair"]

/-- `any(keyword in issue.lower() for keyword in [...])`
(validator.py lines 116-124). -/
def is_code_critical (issue : String) : Bool :=
  critical_keywords.any fun keyword => hasSubL (lowerStr issue).data keyword.data

/-- `PDFValidator.validate_pdf_structure` on an opened document
(validator.py lines 20-127): zero pages short-circuits; otherwise the
collected issues are filtered by the critical keywords and the verdict is
`critical_issues == []`. -/
def validate_pdf_structure (doc : VDoc) : Bool × List String :=
  if doc.pages.length = 0 then
    (false, [no_pages_issue])
  else
    let issues := pages_issues 0 doc.pages ++ docinfo_issues doc.docinfo
      ++ (if doc.is_encrypted then [encrypted_issue] else [])
    let critical_issues := issues.filter is_code_critical
    (critical_issues.length == 0, issues)

/-- `PDFValidator.validate_pdf_structure` on a raw buffer: `pikepdf.open`
raising is caught by the outer handler (validator.py lines 108-110) which
records the fault and returns `False` directly. -/
def validate_pdf_structure_buffer : VBuffer → Bool × List String
  | VBuffer.corrupt e => (false, [structure_fail_issue e])
  | VBuffer.openable d => validate_pdf_structure d

/-! ### Validator lemmas -/

lemma filter_critical_iff (issues : List String) :
    ((issues.filter is_code_critical).length == 0) = true ↔
      ∀ issue ∈ issues, is_code_critical issue = false := by
  rw [beq_iff_eq, List.length_eq_zero, List.filter_eq_nil_iff]
  constructor
  · intro h issue hmem
    have := h issue hmem
    rwa [Bool.not_eq_true] at this
  · intro h issue hmem
    rw [h issue hmem]
    simp

/-- The verdict of `validate_pdf_structure` is `valid` exactly when no
recorded issue matches a critical keyword. -/
lemma validate_verdict_iff (doc : VDoc) :
    (validate_pdf_structure doc).1 = true ↔
      ∀ issue ∈ (validate_pdf_structure doc).2, is_code_critical issue = false := by
  rw [validate_pdf_structure]
  split
  · constructor
    · intro h
      cases h
    · intro h
      have h0 := h no_pages_issue (by simp)
      rw [show is_code_critical no_pages_issue = true from by decide] at h0
      cases h0
  · exact filter_critical_iff _

lemma pages_issues_mem : ∀ (ps : List VPage) (j i : Nat) (p : VPage),
    ps[i]? = some p → ∀ x ∈ page_issues (j + i) p, x ∈ pages_issues j ps
  | [], _, i, p, h => by simp at h
  | q :: ps, j, 0, p, h => by
    simp only [List.getElem?_cons_zero, Option.some.injEq] at h
    subst h
    intro x hx
    exact List.mem_append_left _ (by simpa using hx)
  | q :: ps, j, i + 1, p, h => by
    simp only [List.getElem?_cons_succ] at h
    intro x hx
    apply List.mem_append_right
    have harith : j + (i + 1) = (j + 1) + i := by omega
    rw [harith] at hx
    exact pages_issues_mem ps (j + 1) i p h x hx

lemma docinfo_issues_eq_nil : ∀ {d : List (String × PdfVal)},
    (∀ kv ∈ d, ∀ s, kv.2 = PdfVal.str s → s.length ≤ 10000) →
    docinfo_issues d = []
  | [], _ => rfl
  | (k, PdfVal.str s) :: rest, h => by
    rw [docinfo_issues, if_neg, List.nil_append]
    · exact docinfo_issues_eq_nil fun kv hkv => h kv (List.mem_cons_of_mem _ hkv)
    · have := h (k, PdfVal.str s) (List.mem_cons_self _ _) s rfl
      omega
  | (k, PdfVal.nonStr) :: rest, h => by
    rw [docinfo_issues]
    exact docinfo_issues_eq_nil fun kv hkv => h kv (List.mem_cons_of_mem _ hkv)

/-! ### Criticality of the individual issue strings -/

lemma pairOcc_blocks3_false {c1 c2 : Char} (A D1 B : List Char)
    (hA : pairOcc c1 c2 A = false) (hB : pairOcc c1 c2 B = false)
    (hD1 : ∀ c ∈ D1, c ∈ num_char_list) (hD1ne : D1 ≠ [])
    (hc1 : c1 ∉ num_char_list) (hc2 : c2 ∉ num_char_list) :
    pairOcc c1 c2 (A ++ (D1 ++ B)) = false := by
  have h := pairOcc_blocks_false A D1 B [] hA hB hD1 (by simp) hD1ne hc1 hc2
  rwa [List.append_nil] at h

lemma char_notMem_blocks3 {c : Char} (A D1 B : List Char)
    (hA : c ∉ A) (hB : c ∉ B)
    (hD1 : ∀ x ∈ D1, x ∈ num_char_list) (hc : c ∉ num_char_list) :
    c ∉ A ++ (D1 ++ B) := by
  have h := char_notMem_blocks A D1 B [] hA hB hD1 (by simp) hc
  rwa [List.append_nil] at h

lemma natRepr_lower_subset (n : Nat) :
    ∀ c ∈ (natRepr n).data.map Char.toLower, c ∈ num_char_list :=
  lower_num_subset (natRepr_subset n)

lemma intRepr_lower_subset (i : Int) :
    ∀ c ∈ (intRepr i).data.map Char.toLower, c ∈ num_char_list :=
  lower_num_subset (intRepr_subset i)

lemma natRepr_lower_ne_nil (n : Nat) : (natRepr n).data.map Char.toLower ≠ [] := by
  intro h
  exact natRepr_data_ne_nil n (List.map_eq_nil_iff.mp h)

lemma invalid_dims_issue_critical (i : Nat) (w h : Int) :
    is_code_critical (invalid_dims_issue i w h) = true := by
  rw [is_code_critical]
  apply List.any_eq_true.mpr
  refine ⟨"invalid dimensions", by decide, ?_⟩
  show hasSubL ((("Page ").data ++ ((natRepr (i + 1)).data
    ++ ((" has invalid dimensions: ").data ++ ((intRepr w).data
      ++ (("x").data ++ (intRepr h).data))))).map Char.toLower)
    ("invalid dimensions").data = true
  rw [List.map_append, List.map_append]
  apply hasSubL_append_left
  apply hasSubL_append_left
  rw [List.map_append]
  apply hasSubL_append_right
  decide

lemma invalid_rotation_issue_not_critical (i : Nat) (rot : Int) :
    is_code_critical (invalid_rotation_issue i rot) = false := by
  rw [is_code_critical]
  apply List.any_eq_false.mpr
  intro kw hkw
  have hshape : (lowerStr (invalid_rotation_issue i rot)).data
      = ("page ").data ++ ((natRepr (i + 1)).data.map Char.toLower
        ++ ((" has invalid rotation: ").data ++ (intRepr rot).data.map Char.toLower)) := by
    show ((("Page ").data ++ ((natRepr (i + 1)).data
      ++ ((" has invalid rotation: ").data ++ (intRepr rot).data))).map Char.toLower) = _
    rw [List.map_append, List.map_append, List.map_append]
    rw [show ("Page ").data.map Char.toLower = ("page ").data from by decide]
    rw [show (" has invalid rotation: ").data.map Char.toLower
      = (" has invalid rotation: ").data from by decide]
  rw [hshape, Bool.not_eq_true]
  fin_cases hkw
  · refine not_hasSubL_pair_str "has no pages" 'n' 'o' (by decide) ?_
    apply pairOcc_blocks_false
    · decide
    · decide
    · exact natRepr_lower_subset _
    · exact intRepr_lower_subset _
    · exact natRepr_lower_ne_nil _
    · decide
    · decide
  · refine not_hasSubL_pair_str "has no mediabox" 'n' 'o' (by decide) ?_
    apply pairOcc_blocks_false
    · decide
    · decide
    · exact natRepr_lower_subset _
    · exact intRepr_lower_subset _
    · exact natRepr_lower_ne_nil _
    · decide
    · decide
  · refine not_hasSubL_char_str "invalid dimensions" 'm' (by decide) ?_
    apply char_notMem_blocks
    · decide
    · decide
    · exact natRepr_lower_subset _
    · exact intRepr_lower_subset _
    · decide
  · refine not_hasSubL_char_str "could not repair" 'u' (by decide) ?_
    apply char_notMem_blocks
    · decide
    · decide
    · exact natRepr_lower_subset _
    · exact intRepr_lower_subset _
    · decide

lemma contents_issue_not_critical (i : Nat) :
    is_code_critical (contents_issue i) = false := by
  rw [is_code_critical]
  apply List.any_eq_false.mpr
  intro kw hkw
  have hshape : (lowerStr (contents_issue i)).data
      = ("page ").data ++ ((natRepr (i + 1)).data.map Char.toLower
        ++ (" has inaccessible contents object").data) := by
    show ((("Page ").data ++ ((natRepr (i + 1)).data
      ++ (" has inaccessible Contents object").data)).map Char.toLower) = _
    rw [List.map_append, List.map_append]
    rw [show ("Page ").data.map Char.toLower = ("page ").data from by decide]
    rw [show (" has inaccessible Contents object").data.map Char.toLower
      = (" has inaccessible contents object").data from by decide]
  rw [hshape, Bool.not_eq_true]
  fin_cases hkw
  · refine not_hasSubL_pair_str "has no pages" 'n' 'o' (by decide) ?_
    apply pairOcc_blocks3_false
    · decide
    · decide
    · exact natRepr_lower_subset _
    · exact natRepr_lower_ne_nil _
    · decide
    · decide
  · refine not_hasSubL_pair_str "has no mediabox" 'n' 'o' (by decide) ?_
    apply pairOcc_blocks3_false
    · decide
    · decide
    · exact natRepr_lower_subset _
    · exact natRepr_lower_ne_nil _
    · decide
    · decide
  · refine not_hasSubL_char_str "invalid dimensions" 'm' (by decide) ?_
    apply char_notMem_blocks3
    · decide
    · decide
    · exact natRepr_lower_subset _
    · decide
  · refine not_hasSubL_char_str "could not repair" 'u' (by decide) ?_
    apply char_notMem_blocks3
    · decide
    · decide
    · exact natRepr_lower_subset _
    · decide

lemma pages_issues_mem0 {ps : List VPage} {i : Nat} {p : VPage} (h : ps[i]? = some p) :
    ∀ x ∈ page_issues i p, x ∈ pages_issues 0 ps := by
  intro x hx
  exact pages_issues_mem ps 0 i p h x (by rwa [Nat.zero_add])

lemma validate_snd {doc : VDoc} (h : doc.pages ≠ []) :
    (validate_pdf_structure doc).2
      = pages_issues 0 doc.pages ++ docinfo_issues doc.docinfo
        ++ (if doc.is_encrypted then [encrypted_issue] else []) := by
  rw [validate_pdf_structure, if_neg (fun hh => h (List.length_eq_zero.mp hh))]

lemma verdict_false_of_critical {doc : VDoc} (issue : String)
    (hmem : issue ∈ (validate_pdf_structure doc).2)
    (hcrit : is_code_critical issue = true) :
    (validate_pdf_structure doc).1 = false := by
  rw [Bool.eq_false_iff]
  intro h
  have h0 := (validate_verdict_iff doc).mp h issue hmem
  rw [hcrit] at h0
  cases h0

/-- A page that opens fine, has a mediabox and strictly positive dimensions
(rotation, contents accessibility arbitrary). -/
def clean_ok_page (p : VPage) : Prop :=
  ∃ w h rot cb, p = VPage.ok (some (w, h)) rot cb ∧ 0 < w ∧ 0 < h

lemma pages_issues_clean : ∀ (ps : List VPage) (j : Nat),
    (∀ p ∈ ps, clean_ok_page p) →
    ∀ x ∈ pages_issues j ps, is_code_critical x = false
  | [], _, _, x, hx => absurd hx (List.not_mem_nil x)
  | p :: rest, j, hclean, x, hx => by
    rcases List.mem_append.mp hx with hx | hx
    · obtain ⟨w, h, rot, cb, rfl, hw, hh⟩ := hclean p (List.mem_cons_self _ _)
      simp only [page_issues] at hx
      rw [if_neg (by omega), List.nil_append] at hx
      rcases List.mem_append.mp hx with hx | hx
      · by_cases hrot : rot ∈ ([0, 90, 180, 270] : List Int)
        · rw [if_pos hrot] at hx
          cases hx
        · rw [if_neg hrot, List.mem_singleton] at hx
          subst hx
          exact invalid_rotation_issue_not_critical j rot
      · cases cb with
        | false =>
          rw [if_neg (by simp)] at hx
          cases hx
        | true =>
          rw [if_pos rfl, List.mem_singleton] at hx
          subst hx
          exact contents_issue_not_critical j
    · exact pages_issues_clean rest (j + 1)
        (fun q hq => hclean q (List.mem_cons_of_mem _ hq)) x hx

/-- Counterexample to **C6** as stated: the code's critical-keyword list has
a *fourth* entry, `"could not repair"`.  A one-page document whose page
inspection raises with a message containing that phrase is judged invalid,
although none of its recorded issues matches the three keywords the claim
calls critical. -/
def c6_doc : VDoc :=
  { pages := [VPage.fault "could not repair page tree"],
    docinfo := [], is_encrypted := false }

/-- The claim's critical set: exactly the three keywords it names. -/
def claim_critical_keywords : List String :=
  ["has no pages", "has no mediabox", "invalid dimensions"]

def is_claim_critical (issue : String) : Bool :=
  claim_critical_keywords.any fun keyword => hasSubL (lowerStr issue).data keyword.data

/-- Counterexample for C6: `c6_doc` is judged invalid though no recorded
issue matches `"no pages"`, `"no mediabox"` or `"invalid dimensions"`. -/
theorem C6_critical_set_counterexample :
    (validate_pdf_structure c6_doc).1 = false ∧
      ∀ issue ∈ (validate_pdf_structure c6_doc).2, is_claim_critical issue = false := by
  decide

/-- **C6 (amended).** For every document that opens: the verdict is valid
iff no recorded issue matches a *code*-critical keyword, where the code's
critical keywords are `"has no pages"`, `"has no mediabox"`,
`"invalid dimensions"` **and** `"could not repair"` (substring match on the
lowercased issue).  A page with mediabox and width or height `≤ 0` always
makes the verdict invalid with its `invalid dimensions` issue recorded; a
rotation outside `{0, 90, 180, 270}` is recorded as an issue; and a
document whose pages all have positive dimensions (rotations arbitrary)
and whose metadata strings are short is always judged valid — rotation
issues never by themselves make the verdict invalid. -/
theorem C6_validator_verdict_amended :
    (∀ doc : VDoc, (validate_pdf_structure doc).1 = true ↔
        ∀ issue ∈ (validate_pdf_structure doc).2, is_code_critical issue = false)
    ∧ (∀ (doc : VDoc) (i : Nat) (w h rot : Int) (cb : Bool),
        doc.pages[i]? = some (VPage.ok (some (w, h)) rot cb) → w ≤ 0 ∨ h ≤ 0 →
        (validate_pdf_structure doc).1 = false ∧
          invalid_dims_issue i w h ∈ (validate_pdf_structure doc).2)
    ∧ (∀ (doc : VDoc) (i : Nat) (w h rot : Int) (cb : Bool),
        doc.pages[i]? = some (VPage.ok (some (w, h)) rot cb) →
        rot ∉ ([0, 90, 180, 270] : List Int) →
        invalid_rotation_issue i rot ∈ (validate_pdf_structure doc).2)
    ∧ (∀ doc : VDoc, doc.pages ≠ [] →
        (∀ p ∈ doc.pages, clean_ok_page p) →
        (∀ kv ∈ doc.docinfo, ∀ s, kv.2 = PdfVal.str s → s.length ≤ 10000) →
        (validate_pdf_structure doc).1 = true) := by
  refine ⟨validate_verdict_iff, ?_, ?_, ?_⟩
  · intro doc i w h rot cb hpi hwh
    have hne : doc.pages ≠ [] := by
      intro h0
      rw [h0] at hpi
      simp at hpi
    have hmem : invalid_dims_issue i w h ∈ (validate_pdf_structure doc).2 := by
      rw [validate_snd hne]
      apply List.mem_append_left
      apply List.mem_append_left
      apply pages_issues_mem0 hpi
      simp only [page_issues]
      rw [if_pos hwh]
      exact List.mem_append_left _ (List.mem_cons_self _ _)
    exact ⟨verdict_false_of_critical _ hmem (invalid_dims_issue_critical i w h), hmem⟩
  · intro doc i w h rot cb hpi hrot
    have hne : doc.pages ≠ [] := by
      intro h0
      rw [h0] at hpi
      simp at hpi
    rw [validate_snd hne]
    apply List.mem_append_left
    apply List.mem_append_left
    apply pages_issues_mem0 hpi
    simp only [page_issues]
    apply List.mem_append_left
    apply List.mem_append_right
    rw [if_neg hrot]
    exact List.mem_cons_self _ _
  · intro doc hne hclean hmeta
    apply (validate_verdict_iff doc).mpr
    intro issue hmem
    rw [validate_snd hne] at hmem
    rcases List.mem_append.mp hmem with hmem | hmem
    · rcases List.mem_append.mp hmem with hmem | hmem
      · exact pages_issues_clean doc.pages 0 hclean issue hmem
      · rw [docinfo_issues_eq_nil hmeta] at hmem
        cases hmem
    · split at hmem
      · rw [List.mem_singleton] at hmem
        subst hmem
        decide
      · cases hmem

/-- Witness for the amended C6: a one-page document with positive
dimensions and rotation `45` is judged valid. -/
def c6_witness_doc : VDoc :=
  { pages := [VPage.ok (some (595, 842)) 45 false],
    docinfo := [("Title", PdfVal.str "hello")], is_encrypted := false }

theorem C6_validator_verdict_amended_witness :
    (validate_pdf_structure c6_witness_doc).1 = true :=
  C6_validator_verdict_amended.2.2.2 c6_witness_doc (by simp [c6_witness_doc])
    (by
      intro p hp
      rw [show c6_witness_doc.pages = [VPage.ok (some (595, 842)) 45 false] from rfl,
        List.mem_singleton] at hp
      subst hp
      exact ⟨595, 842, 45, false, rfl, by decide, by decide⟩)
    (by
      intro kv hkv s hs
      rw [show c6_witness_doc.docinfo = [("Title", PdfVal.str "hello")] from rfl,
        List.mem_singleton] at hkv
      subst hkv
      have hs2 : PdfVal.str "hello" = PdfVal.str s := hs
      injection hs2 with h
      subst h
      decide)

/-- Counterexample to **C8** as stated: a page-level internal fault is
captured as an issue, but the verdict stays *valid* — the fault does not
force the verdict to invalid (only the top-level open failure does). -/
def c8_doc : VDoc :=
  { pages := [VPage.fault "boom"], docinfo := [], is_encrypted := false }

theorem C8_page_fault_counterexample :
    (validate_pdf_structure c8_doc).1 = true ∧
      (validate_pdf_structure c8_doc).2 = [page_fault_issue 0 "boom"] := by
  decide

/-- **C8 (amended).** Validation is total (never raises, by construction of
the embedding).  A top-level fault — the buffer cannot be opened — is
captured as a `PDF structure validation failed` issue and forces the
verdict to invalid.  A page-level fault is recorded as an issue (unless its
text contains `"Object is not a Dictionary or Stream"`, in which case it is
silently skipped), and by itself it makes the verdict invalid exactly when
its recorded issue text matches a critical keyword: a critical fault issue
forces the verdict to invalid, while a lone page fault whose issue matches
no critical keyword leaves the verdict valid. -/
theorem C8_validation_total_amended :
    (∀ e : String, (validate_pdf_structure_buffer (VBuffer.corrupt e)).1 = false ∧
        structure_fail_issue e ∈ (validate_pdf_structure_buffer (VBuffer.corrupt e)).2)
    ∧ (∀ (doc : VDoc) (i : Nat) (msg : String),
        doc.pages[i]? = some (VPage.fault msg) →
        hasSubL msg.data obj_skip_marker.data = false →
        page_fault_issue i msg ∈ (validate_pdf_structure doc).2
          ∧ (is_code_critical (page_fault_issue i msg) = true →
              (validate_pdf_structure doc).1 = false))
    ∧ (∀ (msg : String) (enc : Bool),
        is_code_critical (page_fault_issue 0 msg) = false →
        (validate_pdf_structure
          { pages := [VPage.fault msg], docinfo := [], is_encrypted := enc }).1 = true) := by
  refine ⟨?_, ?_, ?_⟩
  · intro e
    exact ⟨rfl, List.mem_singleton_self _⟩
  · intro doc i msg hpi hskip
    have hne : doc.pages ≠ [] := by
      intro h0
      rw [h0] at hpi
      simp at hpi
    have hmem : page_fault_issue i msg ∈ (validate_pdf_structure doc).2 := by
      rw [validate_snd hne]
      apply List.mem_append_left
      apply List.mem_append_left
      apply pages_issues_mem0 hpi
      simp only [page_issues]
      rw [if_neg (by rw [hskip]; simp)]
      exact List.mem_cons_self _ _
    exact ⟨hmem, fun hcrit => verdict_false_of_critical _ hmem hcrit⟩
  · intro msg enc hnc
    apply (validate_verdict_iff _).mpr
    intro issue hmem
    rw [validate_snd (by simp)] at hmem
    rcases List.mem_append.mp hmem with hmem | hmem
    · rcases List.mem_append.mp hmem with hmem | hmem
      · rw [show pages_issues 0 [VPage.fault msg]
            = page_issues 0 (VPage.fault msg) ++ [] from rfl, List.append_nil] at hmem
        simp only [page_issues] at hmem
        split at hmem
        · cases hmem
        · rw [List.mem_singleton] at hmem
          subst hmem
          exact hnc
      · cases hmem
    · split at hmem
      · rw [List.mem_singleton] at hmem
        subst hmem
        decide
      · cases hmem

/-- Witness for the amended C8: a lone page fault with text `"boom"` — whose
recorded issue matches no critical keyword — leaves the verdict valid. -/
theorem C8_validation_total_amended_witness :
    (validate_pdf_structure c8_doc).1 = true :=
  C8_validation_total_amended.2.2 "boom" false (by decide)

/-! ## Repair (`PDFValidator.repair_pdf`, validator.py lines 129-190)

A source page carries the data the repairer inspects: its mediabox, whether
the primary `copy_foreign` raises (`copy_err`, with the exception text) and
whether the simpler fallback append also raises (`fallback_err`).  A buffer
that cannot be opened at all is `RBuffer.corrupt`; that is the only
unrecoverable fault — it is caught by the outer handler (lines 187-190),
which returns the *original* buffer with `success = false`. -/

structure RPage where
  mediabox : Option (Int × Int)
  copy_err : Option String
  fallback_err : Option String
deriving DecidableEq

structure RDoc where
  pages : List RPage
  docinfo : List (String × PdfVal)
deriving DecidableEq

inductive RBuffer
  | openable (doc : RDoc)
  | corrupt (err : String)
deriving DecidableEq

def repair_fail_note (e : String) : String := "Repair failed: " ++ e

/-- The page-repair loop (validator.py lines 144-167): primary copy with
default-mediabox synthesis, fallback copy on failure, skip with a note when
both fail. -/
def repair_pages (i : Nat) : List RPage → List RPage × List String
  | [] => ([], [])
  | p :: rest =>
    let step := repair_pages (i + 1) rest
    match p.copy_err with
    | none =>
      match p.mediabox with
      | none => ({ p with mediabox := some (595, 842) } :: step.1,
          ("Page " ++ natRepr (i + 1) ++ ": Created default mediabox") :: step.2)
      | some _ => (p :: step.1, step.2)
    | some e1 =>
      match p.fallback_err with
      | none => (p :: step.1,
          ("Page " ++ natRepr (i + 1) ++ ": Used fallback copy method") :: step.2)
      | some e2 => (step.1,
          ("Page " ++ natRepr (i + 1) ++ ": Could not repair, skipping: "
            ++ e1 ++ " / " ++ e2) :: step.2)

def safe_fields : List String := ["Title", "Author", "Subject", "Creator", "Producer"]

def find_val : List (String × PdfVal) → String → Option PdfVal
  | [], _ => none
  | (k, v) :: rest, f => if k = f then some v else find_val rest f

/-- The safe-field metadata copy of the repairer (validator.py lines
169-178): the five allow-listed fields, string-valued and strictly shorter
than 1000 characters. -/
def copy_safe_docinfo (d : List (String × PdfVal)) : List (String × String) :=
  safe_fields.filterMap fun f =>
    match find_val d f with
    | some (PdfVal.str s) => if s.length < 1000 then some (f, s) else none
    | _ => none

/-- `PDFValidator.repair_pdf` (validator.py lines 129-190). -/
def repair_pdf : RBuffer → RBuffer × Bool × List String
  | RBuffer.corrupt e => (RBuffer.corrupt e, false, [repair_fail_note e])
  | RBuffer.openable doc =>
    (RBuffer.openable
      { pages := (repair_pages 0 doc.pages).1,
        docinfo := (copy_safe_docinfo doc.docinfo).map fun kv => (kv.1, PdfVal.str kv.2) },
      true, (repair_pages 0 doc.pages).2)

/-- **C9.** When repair hits an unrecoverable fault (the source cannot be
opened at all), `repair_pdf` returns `success = false`, the original buffer
unchanged, and a note explaining the failure; more generally, whenever
`success = false` the returned buffer is the input buffer — no partially
repaired document is ever returned on failure. -/
theorem C9_repair_failure_atomic :
    (∀ e : String, repair_pdf (RBuffer.corrupt e)
        = (RBuffer.corrupt e, false, [repair_fail_note e]))
    ∧ (∀ buf : RBuffer, (repair_pdf buf).2.1 = false → (repair_pdf buf).1 = buf) := by
  constructor
  · intro e
    rfl
  · intro buf h
    cases buf with
    | corrupt e => rfl
    | openable doc => cases h

/-- Witness for C9: an unopenable buffer is returned unchanged. -/
theorem C9_repair_failure_atomic_witness :
    (repair_pdf (RBuffer.corrupt "x")).1 = RBuffer.corrupt "x" :=
  C9_repair_failure_atomic.2 (RBuffer.corrupt "x") rfl

/-! ## Per-part assembly and the fallback ladder (`split_pdf`, splitter.py lines 84-148)

A produced part is modelled by what the claims inspect: the pages it holds
(as indices into the source), its docinfo dictionary, and its
`pdf:Keywords` XMP field.  The verdict of `validate_and_repair_pdf` on a
saved buffer depends on pikepdf's serialisation; it is supplied as data
(`VerdictEnv`), while the artefacts the ladder builds and delivers are
modelled concretely.  When `validate_pdf_for_paperless` validates via a
successful repair it returns the repaired rebuild, whose metadata is the
safe-field copy and whose XMP is fresh (no keywords); page-level repair
effects are covered by `repair_pdf` above and do not affect the metadata
fields tracked here. -/

structure Part where
  pages : List Nat
  docinfo : List (String × String)
  keywords : Option String
deriving DecidableEq

def split_info_tag (stem : String) (idx total : Nat) : String :=
  "Split-Of=" ++ stem ++ "#part" ++ natRepr (idx + 1) ++ "/" ++ natRepr total

/-- splitter.py lines 103-108: append to `pdf:Keywords`, with a delimiter
when the field is already non-empty. -/
def xmp_keywords_after (existing split_info : String) : String :=
  if existing ≠ "" then existing ++ "; " ++ split_info else split_info

/-- First assembly of a part (splitter.py lines 85-115): the range's pages,
the string-valued docinfo copy, and the Split-Of tag written into the fresh
document's (initially empty) `pdf:Keywords`. -/
def assemble_part (src_docinfo : List (String × PdfVal)) (stem : String)
    (idx total : Nat) (range_pages : List Nat) : Part :=
  { pages := range_pages,
    docinfo := copy_docinfo src_docinfo,
    keywords := some (xmp_keywords_after "" (split_info_tag stem idx total)) }

/-- Fallback rebuild (splitter.py lines 128-134): a fresh document holding
only the range's pages — no docinfo copy, no provenance injection. -/
def fallback_part (range_pages : List Nat) : Part :=
  { pages := range_pages, docinfo := [], keywords := none }

def find_str : List (String × String) → String → Option String
  | [], _ => none
  | (k, v) :: rest, f => if k = f then some v else find_str rest f

/-- The repaired rebuild of a part, at the metadata level (repair_pdf's
safe-field copy; a fresh document has no XMP keywords). -/
def repair_part (p : Part) : Part :=
  { pages := p.pages,
    docinfo := safe_fields.filterMap fun f =>
      match find_str p.docinfo f with
      | some s => if s.length < 1000 then some (f, s) else none
      | none => none,
    keywords := none }

/-- The two outcomes of `validate_and_repair_pdf` on a saved part that the
ladder branches on: the compatibility verdict, and whether the returned
buffer is the repaired rebuild rather than the buffer itself. -/
structure VerdictEnv where
  is_valid : Bool
  used_repair : Bool

/-- `validate_and_repair_pdf` (splitter.py lines 11-33) at the part level:
on success the returned buffer is the part (or its repaired rebuild); on
failure the part is returned with `False`. -/
def validate_and_repair_part (p : Part) (env : VerdictEnv) : Part × Bool :=
  if env.is_valid then
    (if env.used_repair then repair_part p else p, true)
  else
    (p, false)

/-- The per-part ladder of `split_pdf` (splitter.py lines 84-148): deliver
the validated first assembly; else rebuild via the plain page-copy fallback
and deliver it if it validates; else deliver the first assembly's buffer
as-is (degraded, `Bool` result `false`). -/
def process_part (src_docinfo : List (String × PdfVal)) (stem : String)
    (idx total : Nat) (range_pages : List Nat) (env1 env2 : VerdictEnv) :
    Part × Bool :=
  let first := assemble_part src_docinfo stem idx total range_pages
  let r1 := validate_and_repair_part first env1
  if r1.2 then
    (r1.1, true)
  else
    let r2 := validate_and_repair_part (fallback_part range_pages) env2
    if r2.2 then
      (r2.1, true)
    else
      (first, false)

/-- **C10.** When a part's first validation fails, the fallback rebuild
carries no docinfo copy and no provenance tag: if the fallback validates,
the delivered part has empty docinfo and no `Split-Of` keyword at all;
only when the fallback also fails is the first assembly delivered as-is,
degraded, still carrying the docinfo copy and the `Split-Of` tag. -/
theorem C10_fallback_strips_provenance (src_docinfo : List (String × PdfVal))
    (stem : String) (idx total : Nat) (range_pages : List Nat)
    (env1 env2 : VerdictEnv) (h1 : env1.is_valid = false) :
    (env2.is_valid = true →
      (process_part src_docinfo stem idx total range_pages env1 env2).2 = true ∧
      (process_part src_docinfo stem idx total range_pages env1 env2).1.keywords = none ∧
      (process_part src_docinfo stem idx total range_pages env1 env2).1.docinfo = [])
    ∧ (env2.is_valid = false →
      process_part src_docinfo stem idx total range_pages env1 env2
        = (assemble_part src_docinfo stem idx total range_pages, false) ∧
      (assemble_part src_docinfo stem idx total range_pages).keywords
        = some (split_info_tag stem idx total) ∧
      (assemble_part src_docinfo stem idx total range_pages).docinfo
        = copy_docinfo src_docinfo) := by
  constructor
  · intro h2
    cases henv : env2.used_repair <;>
      simp [process_part, validate_and_repair_part, h1, h2, henv,
        fallback_part, repair_part, find_str]
  · intro h2
    refine ⟨?_, ?_, rfl⟩
    · simp [process_part, validate_and_repair_part, h1, h2]
    · simp [assemble_part, xmp_keywords_after]

/-- Witness for C10: with a failing first validation and a succeeding
fallback validation, the delivered part carries no metadata and no
provenance. -/
theorem C10_fallback_strips_provenance_witness :
    (process_part [("Title", PdfVal.str "t")] "doc" 0 2 [0, 1]
        ⟨false, false⟩ ⟨true, false⟩).2 = true ∧
    (process_part [("Title", PdfVal.str "t")] "doc" 0 2 [0, 1]
        ⟨false, false⟩ ⟨true, false⟩).1.keywords = none ∧
    (process_part [("Title", PdfVal.str "t")] "doc" 0 2 [0, 1]
        ⟨false, false⟩ ⟨true, false⟩).1.docinfo = [] :=
  (C10_fallback_strips_provenance [("Title", PdfVal.str "t")] "doc" 0 2 [0, 1]
    ⟨false, false⟩ ⟨true, false⟩ rfl).1 rfl

end PDFKatana
